import Mathlib

/-!
Shallow embedding of the unified-openai-compat gateway core
(src/config.rs, src/handlers.rs, src/middleware.rs), together with
theorems checking the specification claims about model resolution,
fetching, forwarding and the access gate.
-/

set_option autoImplicit false

namespace Gateway

/-- JSON values, the model of serde_json::Value used throughout the core. -/
inductive Json where
  | null : Json
  | bool (b : Bool) : Json
  | num (n : Int) : Json
  | str (s : String) : Json
  | arr (elems : List Json) : Json
  | obj (fields : List (String × Json)) : Json

/-- First-match association lookup on string keys; models map/object access. -/
def lookupKey {β : Type} (k : String) : List (String × β) → Option β
  | [] => none
  | (k2, v) :: rest => if k = k2 then some v else lookupKey k rest

/-- Model of serde_json Value::get on an object (None on non-objects). -/
def Json.get (j : Json) (key : String) : Option Json :=
  match j with
  | .obj fields => lookupKey key fields
  | _ => none

/-- Model of Value::as_array. -/
def Json.asArray : Json → Option (List Json)
  | .arr elems => some elems
  | _ => none

/-- Model of Value::as_str. -/
def Json.asStr : Json → Option String
  | .str s => some s
  | _ => none

/-- Provider configuration (src/config.rs, struct Provider). `models` is the
optional static model list. -/
structure Provider where
  base_url : String
  api_key : String
  models : Option (List String)
deriving DecidableEq

/-- Gateway configuration (src/config.rs, struct Config). -/
structure Config where
  server_api_key : Option String
  providers : List Provider
deriving DecidableEq

/-- Outcome of one GET {base_url}/models network exchange, as observed by the
fetch functions: connection error, or a response with a status code and the
result of parsing the body as JSON (`none` = parse failure). -/
inductive NetResult where
  | connErr : NetResult
  | response (status : Nat) (body : Option Json) : NetResult

/-- Model of reqwest StatusCode::is_success: 2xx. -/
def statusIsSuccess (status : Nat) : Bool :=
  decide (200 ≤ status ∧ status ≤ 299)

/-- Model id extraction from a parsed /models response body
(src/config.rs lines 82-93): for each element of the `data` array take its
string `id`, skipping elements without one; no `data` array gives []. -/
def extractModelIds (j : Json) : List String :=
  match (j.get "data").bind Json.asArray with
  | some data => data.filterMap (fun m => (m.get "id").bind Json.asStr)
  | none => []

/-- Embedding of Config::fetch_models_from_provider (src/config.rs 55-106).
The network exchange is an explicit argument; the Result of the Rust
signature is Except, and every branch of the source returns Ok. -/
def fetch_models_from_provider (provider : Provider) (net : NetResult) :
    Except String (List String) :=
  match provider.models with
  | some static_models => .ok static_models
  | none =>
    match net with
    | .connErr => .ok []
    | .response status body =>
      if ¬ statusIsSuccess status then .ok []
      else
        match body with
        | none => .ok []
        | some json_response => .ok (extractModelIds json_response)

/-- Pure value of fetch_models_from_provider (the source never errors). -/
def fetchModelsP (provider : Provider) (net : NetResult) : List String :=
  match provider.models with
  | some static_models => static_models
  | none =>
    match net with
    | .connErr => []
    | .response status body =>
      if ¬ statusIsSuccess status then []
      else
        match body with
        | none => []
        | some json_response => extractModelIds json_response

/-- Inner loop of Config::get_model_mapping (src/config.rs 42-48): insert each
model id not already seen, recording the inserting provider; the HashMap
is modelled as an insertion-ordered association list. -/
def insertModels (provider : Provider) :
    List String → List (String × Provider) → List String →
    List (String × Provider) × List String
  | [], mapping, seen => (mapping, seen)
  | m :: ms, mapping, seen =>
    if m ∈ seen then insertModels provider ms mapping seen
    else insertModels provider ms (mapping ++ [(m, provider)]) (m :: seen)

/-- Outer loop of Config::get_model_mapping: process providers in configured
order, each paired with its network exchange, threading mapping and seen set. -/
def mapAux : List (Provider × NetResult) → List (String × Provider) →
    List String → Except String (List (String × Provider))
  | [], mapping, _ => .ok mapping
  | pr :: rest, mapping, seen => do
    let models ← fetch_models_from_provider pr.1 pr.2
    let st := insertModels pr.1 models mapping seen
    mapAux rest st.1 st.2

/-- Embedding of Config::get_model_mapping (src/config.rs 35-51): the
provider list together with the network exchange of each provider. -/
def get_model_mapping (ps : List (Provider × NetResult)) :
    Except String (List (String × Provider)) :=
  mapAux ps [] []

/-- Pure shadow of mapAux over already-fetched model lists. -/
def mapAuxP : List (Provider × List String) → List (String × Provider) →
    List String → List (String × Provider)
  | [], mapping, _ => mapping
  | it :: rest, mapping, seen =>
    let st := insertModels it.1 it.2 mapping seen
    mapAuxP rest st.1 st.2

/-- Pure value of get_model_mapping. -/
def getModelMappingP (ps : List (Provider × NetResult)) :
    List (String × Provider) :=
  mapAuxP (ps.map (fun pr => (pr.1, fetchModelsP pr.1 pr.2))) [] []

/-- Raw-record id of a model object: its string `id` field, if any. -/
def idOf (j : Json) : Option String :=
  (j.get "id").bind Json.asStr

/-- Synthesized minimal record for a static model id
(src/config.rs 139-144). -/
def synthModel (model_id : String) : Json :=
  .obj [("id", .str model_id), ("object", .str "model"),
        ("created", .null), ("owned_by", .null)]

/-- Raw data extraction from a parsed /models response body
(src/config.rs 170-179): the `data` array verbatim, or [] without one. -/
def extractRawModels (j : Json) : List Json :=
  match (j.get "data").bind Json.asArray with
  | some data => data
  | none => []

/-- Embedding of Config::fetch_raw_models_from_provider
(src/config.rs 133-192). -/
def fetch_raw_models_from_provider (provider : Provider) (net : NetResult) :
    Except String (List Json) :=
  match provider.models with
  | some static_models => .ok (static_models.map synthModel)
  | none =>
    match net with
    | .connErr => .ok []
    | .response status body =>
      if ¬ statusIsSuccess status then .ok []
      else
        match body with
        | none => .ok []
        | some json_response => .ok (extractRawModels json_response)

/-- Pure value of fetch_raw_models_from_provider. -/
def fetchRawModelsP (provider : Provider) (net : NetResult) : List Json :=
  match provider.models with
  | some static_models => static_models.map synthModel
  | none =>
    match net with
    | .connErr => []
    | .response status body =>
      if ¬ statusIsSuccess status then []
      else
        match body with
        | none => []
        | some json_response => extractRawModels json_response

/-- Inner loop of Config::get_all_raw_models (src/config.rs 117-125): keep a
record only if it has a string `id` that has not been seen before. -/
def insertRawModels : List Json → List Json → List String →
    List Json × List String
  | [], acc, seen => (acc, seen)
  | j :: rest, acc, seen =>
    match idOf j with
    | none => insertRawModels rest acc seen
    | some model_id =>
      if model_id ∈ seen then insertRawModels rest acc seen
      else insertRawModels rest (acc ++ [j]) (model_id :: seen)

/-- Outer loop of Config::get_all_raw_models. -/
def rawAux : List (Provider × NetResult) → List Json → List String →
    Except String (List Json)
  | [], acc, _ => .ok acc
  | pr :: rest, acc, seen => do
    let models ← fetch_raw_models_from_provider pr.1 pr.2
    let st := insertRawModels models acc seen
    rawAux rest st.1 st.2

/-- Embedding of Config::get_all_raw_models (src/config.rs 110-129). -/
def get_all_raw_models (ps : List (Provider × NetResult)) :
    Except String (List Json) :=
  rawAux ps [] []

/-- Pure shadow of rawAux over already-fetched raw record lists. -/
def rawAuxP : List (List Json) → List Json → List String → List Json
  | [], acc, _ => acc
  | models :: rest, acc, seen =>
    let st := insertRawModels models acc seen
    rawAuxP rest st.1 st.2

/-- Pure value of get_all_raw_models. -/
def getAllRawModelsP (ps : List (Provider × NetResult)) : List Json :=
  rawAuxP (ps.map (fun pr => fetchRawModelsP pr.1 pr.2)) [] []

/-- Embedding of Config::validate_api_key (src/config.rs 196-207). -/
def validate_api_key (c : Config) (provided_key : String) : Bool :=
  match c.server_api_key with
  | some configured_key => provided_key == configured_key
  | none => true

/-- Authorization header as seen by the middleware: absent, present but not
decodable as a string (to_str failure), or a string value. -/
inductive AuthHeader where
  | absent : AuthHeader
  | malformed : AuthHeader
  | value (s : String) : AuthHeader
deriving DecidableEq

/-- Header validation logic of ApiKeyAuthMiddleware::call
(src/middleware.rs 82-106): require a decodable header starting with
"Bearer " and validate the remainder. The starts_with check of the source
is modelled as equality of the 7-character (all ASCII) head with
"Bearer ", which is the same predicate; the slice auth_str[7..] is the
7-character drop. -/
def api_key_valid (c : Config) (h : AuthHeader) : Bool :=
  match h with
  | .value auth_str =>
    if auth_str.take 7 = "Bearer " then
      validate_api_key c (auth_str.drop 7)
    else false
  | .malformed => false
  | .absent => false

/-- Structured 401 body fabricated by the middleware
(src/middleware.rs 112-117). -/
def authErrorBody : Json :=
  .obj [("error", .obj [("message", .str "Invalid API key"),
                        ("type", .str "authentication_error")])]

/-- Outcome of the middleware: either the request is forwarded to the inner
service (the wrapped handler runs), or it is rejected and the handler is
never invoked. -/
inductive MiddlewareOutcome where
  | forwarded : MiddlewareOutcome
  | rejected (status : Nat) (body : Json) : MiddlewareOutcome

/-- Embedding of ApiKeyAuthMiddleware::call (src/middleware.rs 49-127):
the optional app-data Config, the request path, and the Authorization
header decide whether the inner service is called. -/
def middleware_call (config : Option Config) (path : String)
    (h : AuthHeader) : MiddlewareOutcome :=
  if path = "/v1/models" then .forwarded
  else
    match config with
    | none => .forwarded
    | some cfg =>
      if api_key_valid cfg h then .forwarded
      else .rejected 401 authErrorBody

/-- Response of the models endpoint: an HTTP status and a JSON body. -/
structure JsonResponse where
  status : Nat
  body : Json

/-- Embedding of handlers::models_endpoint (src/handlers.rs 7-29). -/
def models_endpoint (ps : List (Provider × NetResult)) : JsonResponse :=
  match get_all_raw_models ps with
  | .ok all_models =>
    { status := 200,
      body := .obj [("object", .str "list"), ("data", .arr all_models)] }
  | .error e =>
    { status := 500,
      body := .obj [("error",
        .obj [("message", .str ("Failed to fetch models: " ++ e)),
              ("type", .str "internal_error")])] }

/-- Result of the upstream POST {base_url}/chat/completions exchange:
transport failure, or a response with status code and the result of
reading the body bytes (`none` = read failure; unwrap_or_default gives []). -/
inductive UpstreamResult where
  | connErr (msg : String) : UpstreamResult
  | response (status : Nat) (bodyBytes : Option (List Nat)) : UpstreamResult

/-- Result of the chat-completions handler. `error` is an actix error return
(the request is never forwarded upstream); `forwarded` relays the upstream
response; `upstreamFailure` is the fabricated 500 after a transport failure. -/
inductive ChatResult where
  | error (status : Nat) (message : String) : ChatResult
  | forwarded (status : Nat) (contentType : String) (body : List Nat) : ChatResult
  | upstreamFailure (status : Nat) (body : Json) : ChatResult

/-- Embedding of handlers::chat_completions (src/handlers.rs 33-85). The
request body, the per-provider /models exchanges (consumed by
get_model_mapping), and the upstream exchange are explicit arguments. -/
def chat_completions (req : Json) (ps : List (Provider × NetResult))
    (upstream : UpstreamResult) : ChatResult :=
  match (req.get "model").bind Json.asStr with
  | none => .error 400 "Missing model field"
  | some model =>
    match get_model_mapping ps with
    | .error e => .error 500 ("Failed to get model mapping: " ++ e)
    | .ok model_mapping =>
      match lookupKey model model_mapping with
      | none => .error 404 ("Model \x27" ++ model ++ "\x27 not found")
      | some _provider =>
        match upstream with
        | .response status bodyBytes =>
          let body := bodyBytes.getD []
          let actix_status := if 100 ≤ status ∧ status ≤ 999 then status else 500
          .forwarded actix_status "application/json" body
        | .connErr e =>
          .upstreamFailure 500
            (.obj [("error",
              .obj [("message", .str ("Failed to forward request: " ++ e)),
                    ("type", .str "internal_error")])])

/-- Failure modes of a live /models exchange named by the spec: transport
failure, non-2xx status, a body that is not valid JSON, or valid JSON
without a `data` array. -/
def isFetchFailure (net : NetResult) : Bool :=
  match net with
  | .connErr => true
  | .response status body =>
    if ¬ statusIsSuccess status then true
    else
      match body with
      | none => true
      | some j =>
        match (j.get "data").bind Json.asArray with
        | none => true
        | some _ => false

/-- Spec-side characterization of first-seen-across-providers order: keep
each record whose string id has not occurred before, in discovery order. -/
def specFirstSeen (seen : List String) : List Json → List Json
  | [] => []
  | j :: rest =>
    match idOf j with
    | none => specFirstSeen seen rest
    | some model_id =>
      if model_id ∈ seen then specFirstSeen seen rest
      else j :: specFirstSeen (model_id :: seen) rest

/-- Seen set after a pass of specFirstSeen. -/
def specSeenAfter (seen : List String) : List Json → List String
  | [] => seen
  | j :: rest =>
    match idOf j with
    | none => specSeenAfter seen rest
    | some model_id =>
      if model_id ∈ seen then specSeenAfter seen rest
      else specSeenAfter (model_id :: seen) rest

/-- Sample provider with a static model list, for concrete checks. -/
def provA : Provider :=
  { base_url := "http://a.example", api_key := "", models := some ["m1"] }

/-- Sample provider without a static model list (live discovery). -/
def provLive : Provider :=
  { base_url := "http://c.example", api_key := "kc", models := none }

/-- Sample configuration with a configured server key. -/
def cfgSecret : Config := { server_api_key := some "secret", providers := [] }

/-- Sample configuration without a server key (development mode). -/
def cfgDev : Config := { server_api_key := none, providers := [] }

end Gateway

namespace Gateway

theorem fetch_models_ok (provider : Provider) (net : NetResult) :
    fetch_models_from_provider provider net = .ok (fetchModelsP provider net) := by
  unfold fetch_models_from_provider fetchModelsP
  cases provider.models with
  | some ms => rfl
  | none =>
    cases net with
    | connErr => rfl
    | response status body =>
      by_cases h : statusIsSuccess status
      · simp only [h, not_true_eq_false, if_false]
        cases body <;> rfl
      · simp [h]

theorem mapAux_ok (ps : List (Provider × NetResult))
    (mapping : List (String × Provider)) (seen : List String) :
    mapAux ps mapping seen =
      .ok (mapAuxP (ps.map (fun pr => (pr.1, fetchModelsP pr.1 pr.2))) mapping seen) := by
  induction ps generalizing mapping seen with
  | nil => rfl
  | cons pr rest ih =>
    simp only [mapAux, fetch_models_ok, List.map_cons, mapAuxP]
    exact ih _ _

theorem get_model_mapping_ok (ps : List (Provider × NetResult)) :
    get_model_mapping ps = .ok (getModelMappingP ps) :=
  mapAux_ok ps [] []

theorem lookupKey_append {β : Type} (k : String) (l1 l2 : List (String × β)) :
    lookupKey k (l1 ++ l2) = (lookupKey k l1).or (lookupKey k l2) := by
  induction l1 with
  | nil => simp [lookupKey]
  | cons kv rest ih =>
    obtain ⟨k2, v⟩ := kv
    by_cases h : k = k2
    · simp [lookupKey, h]
    · simp [lookupKey, h, ih]

theorem lookupKey_isSome {β : Type} (k : String) (l : List (String × β)) :
    (lookupKey k l).isSome ↔ k ∈ l.map Prod.fst := by
  induction l with
  | nil => simp [lookupKey]
  | cons kv rest ih =>
    obtain ⟨k2, v⟩ := kv
    by_cases h : k = k2
    · simp [lookupKey, h]
    · simp [lookupKey, h, ih]

theorem lookupKey_eq_none {β : Type} (k : String) (l : List (String × β)) :
    lookupKey k l = none ↔ k ∉ l.map Prod.fst := by
  rw [← lookupKey_isSome]
  cases lookupKey k l <;> simp

theorem insertModels_spec (p : Provider) (ms : List String)
    (mapping : List (String × Provider)) (seen : List String)
    (hinv : ∀ k, k ∈ seen ↔ k ∈ mapping.map Prod.fst) :
    (∀ k, k ∈ (insertModels p ms mapping seen).2 ↔
        k ∈ (insertModels p ms mapping seen).1.map Prod.fst)
    ∧ (∀ m, lookupKey m (insertModels p ms mapping seen).1 =
        if m ∈ seen then lookupKey m mapping
        else if m ∈ ms then some p else none)
    ∧ (∀ m, m ∈ (insertModels p ms mapping seen).2 ↔ m ∈ seen ∨ m ∈ ms) := by
  induction ms generalizing mapping seen with
  | nil =>
    refine ⟨hinv, ?_, ?_⟩
    · intro m
      by_cases hm : m ∈ seen
      · simp [insertModels, hm]
      · have hnone : lookupKey m mapping = none :=
          (lookupKey_eq_none m mapping).2 (fun hc => hm ((hinv m).2 hc))
        simp [insertModels, hm, hnone]
    · intro m
      simp [insertModels]
  | cons m1 ms ih =>
    by_cases hm1 : m1 ∈ seen
    · have hred : insertModels p (m1 :: ms) mapping seen =
          insertModels p ms mapping seen := by
        simp [insertModels, hm1]
      have IH := ih mapping seen hinv
      rw [hred]
      refine ⟨IH.1, ?_, ?_⟩
      · intro m
        rw [IH.2.1 m]
        by_cases hm : m ∈ seen
        · simp [hm]
        · have hne : m ≠ m1 := fun he => hm (he ▸ hm1)
          simp [hm, List.mem_cons, hne]
      · intro m
        rw [IH.2.2 m]
        simp only [List.mem_cons]
        constructor
        · rintro (h | h)
          · exact Or.inl h
          · exact Or.inr (Or.inr h)
        · rintro (h | h | h)
          · exact Or.inl h
          · exact Or.inl (h ▸ hm1)
          · exact Or.inr h
    · have hred : insertModels p (m1 :: ms) mapping seen =
          insertModels p ms (mapping ++ [(m1, p)]) (m1 :: seen) := by
        simp [insertModels, hm1]
      have hinv2 : ∀ k, k ∈ m1 :: seen ↔
          k ∈ (mapping ++ [(m1, p)]).map Prod.fst := by
        intro k
        simp only [List.mem_cons, List.map_append, List.mem_append,
          List.map_cons, List.map_nil, List.mem_singleton]
        rw [hinv k]
        tauto
      have IH := ih (mapping ++ [(m1, p)]) (m1 :: seen) hinv2
      rw [hred]
      refine ⟨IH.1, ?_, ?_⟩
      · intro m
        rw [IH.2.1 m]
        by_cases hm : m ∈ seen
        · have hmem : m ∈ m1 :: seen := List.mem_cons_of_mem _ hm
          have hsome : (lookupKey m mapping).isSome :=
            (lookupKey_isSome m mapping).2 ((hinv m).1 hm)
          obtain ⟨v, hv⟩ := Option.isSome_iff_exists.mp hsome
          rw [if_pos hmem, if_pos hm, lookupKey_append, hv]
          rfl
        · by_cases hme : m = m1
          · subst hme
            have hnone : lookupKey m mapping = none :=
              (lookupKey_eq_none m mapping).2 (fun hc => hm ((hinv m).2 hc))
            rw [if_pos (List.mem_cons_self m seen), if_neg hm,
              if_pos (List.mem_cons_self m ms), lookupKey_append, hnone]
            simp [lookupKey]
          · have hmem : m ∉ m1 :: seen := by
              simp [List.mem_cons, hme, hm]
            rw [if_neg hmem, if_neg hm]
            simp [List.mem_cons, hme]
      · intro m
        rw [IH.2.2 m]
        simp only [List.mem_cons]
        tauto

theorem mapAuxP_lookup (items : List (Provider × List String))
    (mapping : List (String × Provider)) (seen : List String)
    (hinv : ∀ k, k ∈ seen ↔ k ∈ mapping.map Prod.fst) (m : String) :
    lookupKey m (mapAuxP items mapping seen) =
      if m ∈ seen then lookupKey m mapping
      else (items.find? (fun it => decide (m ∈ it.2))).map Prod.fst := by
  induction items generalizing mapping seen with
  | nil =>
    by_cases hm : m ∈ seen
    · simp [mapAuxP, hm]
    · have hnone : lookupKey m mapping = none :=
        (lookupKey_eq_none m mapping).2 (fun hc => hm ((hinv m).2 hc))
      simp [mapAuxP, hm, hnone]
  | cons it rest ih =>
    obtain ⟨p, ms⟩ := it
    have IS := insertModels_spec p ms mapping seen hinv
    have hred : mapAuxP ((p, ms) :: rest) mapping seen =
        mapAuxP rest (insertModels p ms mapping seen).1
          (insertModels p ms mapping seen).2 := rfl
    rw [hred, ih _ _ IS.1]
    by_cases hm : m ∈ seen
    · have hst : m ∈ (insertModels p ms mapping seen).2 :=
        (IS.2.2 m).2 (Or.inl hm)
      rw [if_pos hst, if_pos hm, IS.2.1 m, if_pos hm]
    · by_cases hms : m ∈ ms
      · have hst : m ∈ (insertModels p ms mapping seen).2 :=
          (IS.2.2 m).2 (Or.inr hms)
        rw [if_pos hst, IS.2.1 m, if_neg hm, if_pos hms, if_neg hm,
          List.find?_cons_of_pos _ (by simpa using hms)]
        rfl
      · have hst : m ∉ (insertModels p ms mapping seen).2 :=
          fun hc => ((IS.2.2 m).1 hc).elim hm hms
        rw [if_neg hst, if_neg hm,
          List.find?_cons_of_neg _ (by simpa using hms)]

theorem insertModels_keys_nodup (p : Provider) (ms : List String)
    (mapping : List (String × Provider)) (seen : List String)
    (hinv : ∀ k, k ∈ seen ↔ k ∈ mapping.map Prod.fst)
    (hnd : (mapping.map Prod.fst).Nodup) :
    ((insertModels p ms mapping seen).1.map Prod.fst).Nodup := by
  induction ms generalizing mapping seen with
  | nil => simpa [insertModels] using hnd
  | cons m1 ms ih =>
    by_cases hm1 : m1 ∈ seen
    · have hred : insertModels p (m1 :: ms) mapping seen =
          insertModels p ms mapping seen := by
        simp [insertModels, hm1]
      rw [hred]
      exact ih mapping seen hinv hnd
    · have hred : insertModels p (m1 :: ms) mapping seen =
          insertModels p ms (mapping ++ [(m1, p)]) (m1 :: seen) := by
        simp [insertModels, hm1]
      have hinv2 : ∀ k, k ∈ m1 :: seen ↔
          k ∈ (mapping ++ [(m1, p)]).map Prod.fst := by
        intro k
        simp only [List.mem_cons, List.map_append, List.mem_append,
          List.map_cons, List.map_nil, List.mem_singleton]
        rw [hinv k]
        tauto
      have hnd2 : ((mapping ++ [(m1, p)]).map Prod.fst).Nodup := by
        rw [List.map_append, List.nodup_append]
        refine ⟨hnd, by simp, ?_⟩
        intro x hx
        simp only [List.map_cons, List.map_nil, List.mem_singleton]
        intro he
        exact hm1 ((hinv m1).2 (he ▸ hx))
      rw [hred]
      exact ih (mapping ++ [(m1, p)]) (m1 :: seen) hinv2 hnd2

theorem mapAuxP_keys_nodup (items : List (Provider × List String))
    (mapping : List (String × Provider)) (seen : List String)
    (hinv : ∀ k, k ∈ seen ↔ k ∈ mapping.map Prod.fst)
    (hnd : (mapping.map Prod.fst).Nodup) :
    ((mapAuxP items mapping seen).map Prod.fst).Nodup := by
  induction items generalizing mapping seen with
  | nil => simpa [mapAuxP] using hnd
  | cons it rest ih =>
    obtain ⟨p, ms⟩ := it
    have IS := insertModels_spec p ms mapping seen hinv
    exact ih _ _ IS.1 (insertModels_keys_nodup p ms mapping seen hinv hnd)

theorem getModelMappingP_lookup (ps : List (Provider × NetResult)) (m : String) :
    lookupKey m (getModelMappingP ps) =
      (ps.find? (fun pr => decide (m ∈ fetchModelsP pr.1 pr.2))).map Prod.fst := by
  unfold getModelMappingP
  rw [mapAuxP_lookup _ [] [] (by simp) m]
  simp only [List.not_mem_nil, if_false]
  rw [List.find?_map]
  rw [Option.map_map]
  rfl

theorem getModelMappingP_keys_nodup (ps : List (Provider × NetResult)) :
    ((getModelMappingP ps).map Prod.fst).Nodup :=
  mapAuxP_keys_nodup _ [] [] (by simp) (by simp)

theorem fetch_raw_models_ok (provider : Provider) (net : NetResult) :
    fetch_raw_models_from_provider provider net =
      .ok (fetchRawModelsP provider net) := by
  unfold fetch_raw_models_from_provider fetchRawModelsP
  cases provider.models with
  | some ms => rfl
  | none =>
    cases net with
    | connErr => rfl
    | response status body =>
      by_cases h : statusIsSuccess status
      · simp only [h, not_true_eq_false, if_false]
        cases body <;> rfl
      · simp [h]

theorem rawAux_ok (ps : List (Provider × NetResult)) (acc : List Json)
    (seen : List String) :
    rawAux ps acc seen =
      .ok (rawAuxP (ps.map (fun pr => fetchRawModelsP pr.1 pr.2)) acc seen) := by
  induction ps generalizing acc seen with
  | nil => rfl
  | cons pr rest ih =>
    simp only [rawAux, fetch_raw_models_ok, List.map_cons, rawAuxP]
    exact ih _ _

theorem get_all_raw_models_ok (ps : List (Provider × NetResult)) :
    get_all_raw_models ps = .ok (getAllRawModelsP ps) :=
  rawAux_ok ps [] []

theorem idOf_synthModel (s : String) : idOf (synthModel s) = some s := rfl

theorem fetchRawModelsP_ids (provider : Provider) (net : NetResult) :
    (fetchRawModelsP provider net).filterMap idOf = fetchModelsP provider net := by
  unfold fetchRawModelsP fetchModelsP
  cases provider.models with
  | some ms =>
    simp only []
    induction ms with
    | nil => rfl
    | cons s rest ih =>
      simp [List.filterMap_cons, idOf_synthModel, ih]
  | none =>
    cases net with
    | connErr => rfl
    | response status body =>
      by_cases h : statusIsSuccess status
      · simp only [h, not_true_eq_false, if_false]
        cases body with
        | none => rfl
        | some j =>
          show (extractRawModels j).filterMap idOf = extractModelIds j
          unfold extractRawModels extractModelIds
          cases (j.get "data").bind Json.asArray <;> rfl
      · simp [h]

theorem insertRaw_vs_insertModels (p : Provider) (rs : List Json)
    (acc : List Json) (mapping : List (String × Provider)) (seen : List String)
    (hacc : acc.filterMap idOf = mapping.map Prod.fst) :
    (insertRawModels rs acc seen).1.filterMap idOf =
      (insertModels p (rs.filterMap idOf) mapping seen).1.map Prod.fst
    ∧ (insertRawModels rs acc seen).2 =
      (insertModels p (rs.filterMap idOf) mapping seen).2 := by
  induction rs generalizing acc mapping seen with
  | nil => exact ⟨by simpa [insertRawModels, insertModels] using hacc, rfl⟩
  | cons j rest ih =>
    cases hid : idOf j with
    | none =>
      have hred : insertRawModels (j :: rest) acc seen =
          insertRawModels rest acc seen := by
        simp [insertRawModels, hid]
      rw [hred, List.filterMap_cons, hid]
      exact ih acc mapping seen hacc
    | some model_id =>
      rw [List.filterMap_cons, hid]
      by_cases hs : model_id ∈ seen
      · have hred : insertRawModels (j :: rest) acc seen =
            insertRawModels rest acc seen := by
          simp [insertRawModels, hid, hs]
        have hred2 : insertModels p (model_id :: rest.filterMap idOf) mapping seen =
            insertModels p (rest.filterMap idOf) mapping seen := by
          simp [insertModels, hs]
        rw [hred, hred2]
        exact ih acc mapping seen hacc
      · have hred : insertRawModels (j :: rest) acc seen =
            insertRawModels rest (acc ++ [j]) (model_id :: seen) := by
          simp [insertRawModels, hid, hs]
        have hred2 : insertModels p (model_id :: rest.filterMap idOf) mapping seen =
            insertModels p (rest.filterMap idOf)
              (mapping ++ [(model_id, p)]) (model_id :: seen) := by
          simp [insertModels, hs]
        rw [hred, hred2]
        refine ih (acc ++ [j]) (mapping ++ [(model_id, p)]) (model_id :: seen) ?_
        simp [List.filterMap_append, List.map_append, hacc, hid]

theorem rawAuxP_vs_mapAuxP (ps : List (Provider × NetResult))
    (acc : List Json) (mapping : List (String × Provider)) (seen : List String)
    (hacc : acc.filterMap idOf = mapping.map Prod.fst) :
    (rawAuxP (ps.map (fun pr => fetchRawModelsP pr.1 pr.2)) acc seen).filterMap idOf =
      (mapAuxP (ps.map (fun pr => (pr.1, fetchModelsP pr.1 pr.2))) mapping seen).map
        Prod.fst := by
  induction ps generalizing acc mapping seen with
  | nil => simpa [rawAuxP, mapAuxP] using hacc
  | cons pr rest ih =>
    simp only [List.map_cons, rawAuxP, mapAuxP]
    have hfetch : fetchModelsP pr.1 pr.2 =
        (fetchRawModelsP pr.1 pr.2).filterMap idOf :=
      (fetchRawModelsP_ids pr.1 pr.2).symm
    rw [hfetch]
    have J := insertRaw_vs_insertModels pr.1 (fetchRawModelsP pr.1 pr.2)
      acc mapping seen hacc
    rw [J.2]
    exact ih _ _ _ J.1

theorem getAllRawModelsP_ids (ps : List (Provider × NetResult)) :
    (getAllRawModelsP ps).filterMap idOf = (getModelMappingP ps).map Prod.fst :=
  rawAuxP_vs_mapAuxP ps [] [] [] rfl

theorem insertRawModels_ids_isSome (rs : List Json) (acc : List Json)
    (seen : List String) (h : ∀ j ∈ acc, (idOf j).isSome) :
    ∀ j ∈ (insertRawModels rs acc seen).1, (idOf j).isSome := by
  induction rs generalizing acc seen with
  | nil => simpa [insertRawModels] using h
  | cons j0 rest ih =>
    cases hid : idOf j0 with
    | none =>
      have hred : insertRawModels (j0 :: rest) acc seen =
          insertRawModels rest acc seen := by simp [insertRawModels, hid]
      rw [hred]
      exact ih acc seen h
    | some model_id =>
      by_cases hs : model_id ∈ seen
      · have hred : insertRawModels (j0 :: rest) acc seen =
            insertRawModels rest acc seen := by simp [insertRawModels, hid, hs]
        rw [hred]
        exact ih acc seen h
      · have hred : insertRawModels (j0 :: rest) acc seen =
            insertRawModels rest (acc ++ [j0]) (model_id :: seen) := by
          simp [insertRawModels, hid, hs]
        rw [hred]
        refine ih (acc ++ [j0]) (model_id :: seen) ?_
        intro j hj
        rcases List.mem_append.mp hj with hj | hj
        · exact h j hj
        · rw [List.mem_singleton.mp hj, hid]
          rfl

theorem rawAuxP_ids_isSome (rss : List (List Json)) (acc : List Json)
    (seen : List String) (h : ∀ j ∈ acc, (idOf j).isSome) :
    ∀ j ∈ rawAuxP rss acc seen, (idOf j).isSome := by
  induction rss generalizing acc seen with
  | nil => simpa [rawAuxP] using h
  | cons rs rest ih =>
    exact ih _ _ (insertRawModels_ids_isSome rs acc seen h)

theorem getAllRawModelsP_ids_isSome (ps : List (Provider × NetResult)) :
    ∀ j ∈ getAllRawModelsP ps, (idOf j).isSome :=
  rawAuxP_ids_isSome _ [] [] (by simp)

theorem insertRawModels_eq_spec (rs : List Json) (acc : List Json)
    (seen : List String) :
    insertRawModels rs acc seen =
      (acc ++ specFirstSeen seen rs, specSeenAfter seen rs) := by
  induction rs generalizing acc seen with
  | nil => simp [insertRawModels, specFirstSeen, specSeenAfter]
  | cons j rest ih =>
    cases hid : idOf j with
    | none => simp [insertRawModels, specFirstSeen, specSeenAfter, hid, ih]
    | some model_id =>
      by_cases hs : model_id ∈ seen
      · simp [insertRawModels, specFirstSeen, specSeenAfter, hid, hs, ih]
      · simp [insertRawModels, specFirstSeen, specSeenAfter, hid, hs, ih]

theorem specFirstSeen_append (xs ys : List Json) (seen : List String) :
    specFirstSeen seen (xs ++ ys) =
      specFirstSeen seen xs ++ specFirstSeen (specSeenAfter seen xs) ys := by
  induction xs generalizing seen with
  | nil => simp [specFirstSeen, specSeenAfter]
  | cons j rest ih =>
    cases hid : idOf j with
    | none => simp [specFirstSeen, specSeenAfter, hid, ih]
    | some model_id =>
      by_cases hs : model_id ∈ seen
      · simp [specFirstSeen, specSeenAfter, hid, hs, ih]
      · simp [specFirstSeen, specSeenAfter, hid, hs, ih]

theorem rawAuxP_firstSeen (rss : List (List Json)) (acc : List Json)
    (seen : List String) :
    rawAuxP rss acc seen = acc ++ specFirstSeen seen rss.flatten := by
  induction rss generalizing acc seen with
  | nil => simp [rawAuxP, specFirstSeen]
  | cons rs rest ih =>
    have hred : rawAuxP (rs :: rest) acc seen =
        rawAuxP rest (insertRawModels rs acc seen).1
          (insertRawModels rs acc seen).2 := rfl
    rw [hred, insertRawModels_eq_spec]
    simp only [ih, List.flatten_cons, specFirstSeen_append, List.append_assoc]

theorem getAllRawModelsP_firstSeen (ps : List (Provider × NetResult)) :
    getAllRawModelsP ps =
      specFirstSeen [] ((ps.map (fun pr => fetchRawModelsP pr.1 pr.2)).flatten) := by
  unfold getAllRawModelsP
  rw [rawAuxP_firstSeen]
  rfl

theorem fetchModelsP_of_failure (p : Provider) (net : NetResult)
    (hp : p.models = none) (hf : isFetchFailure net = true) :
    fetchModelsP p net = [] := by
  unfold fetchModelsP
  rw [hp]
  cases net with
  | connErr => rfl
  | response status body =>
    unfold isFetchFailure at hf
    by_cases h : statusIsSuccess status
    · simp only [h, not_true_eq_false, if_false] at hf ⊢
      cases body with
      | none => rfl
      | some j =>
        show extractModelIds j = []
        unfold extractModelIds
        cases hd : (j.get "data").bind Json.asArray with
        | none => rfl
        | some data =>
          rw [show ((match some j with
              | none => true
              | some j =>
                match (j.get "data").bind Json.asArray with
                | none => true
                | some _ => false) : Bool) =
            (match (j.get "data").bind Json.asArray with
              | none => true
              | some _ => false) from rfl, hd] at hf
          simp at hf
    · simp [h]

theorem mapAuxP_skip_empty (items1 : List (Provider × List String))
    (p : Provider) (items2 : List (Provider × List String))
    (mapping : List (String × Provider)) (seen : List String) :
    mapAuxP (items1 ++ (p, []) :: items2) mapping seen =
      mapAuxP (items1 ++ items2) mapping seen := by
  induction items1 generalizing mapping seen with
  | nil => rfl
  | cons it rest ih =>
    simp only [List.cons_append, mapAuxP]
    exact ih _ _

theorem chat_completions_eq (req : Json) (ps : List (Provider × NetResult))
    (up : UpstreamResult) :
    chat_completions req ps up =
      (match (req.get "model").bind Json.asStr with
      | none => .error 400 "Missing model field"
      | some model =>
        match lookupKey model (getModelMappingP ps) with
        | none => .error 404 ("Model \x27" ++ model ++ "\x27 not found")
        | some _provider =>
          match up with
          | .response status bodyBytes =>
            .forwarded (if 100 ≤ status ∧ status ≤ 999 then status else 500)
              "application/json" (bodyBytes.getD [])
          | .connErr e =>
            .upstreamFailure 500
              (.obj [("error",
                .obj [("message", .str ("Failed to forward request: " ++ e)),
                      ("type", .str "internal_error")])])) := by
  unfold chat_completions
  rw [get_model_mapping_ok]

/-- C1: for every configured provider list and every set of per-provider fetch
results, resolution succeeds, and the mapping sends each model id to the
provider at the lowest configured-list index whose fetched list contains it
(the first hit of List.find?); so an id occurring in several lists resolves
to the earliest provider, entries of later providers are never inserted, and,
as the key list is duplicate-free, an inserted entry is never replaced. -/
theorem C1_earliest_provider_wins (ps : List (Provider × NetResult)) (m : String) :
    get_model_mapping ps = .ok (getModelMappingP ps)
    ∧ lookupKey m (getModelMappingP ps) =
        (ps.find? (fun pr => decide (m ∈ fetchModelsP pr.1 pr.2))).map Prod.fst
    ∧ ((getModelMappingP ps).map Prod.fst).Nodup :=
  ⟨get_model_mapping_ok ps, getModelMappingP_lookup ps m,
    getModelMappingP_keys_nodup ps⟩

/-- C2: the claim says that with server_api_key unset every protected request
is allowed, also when the Authorization header is absent or lacks the
Bearer prefix. The code disagrees: in development mode the middleware still
returns 401 on an absent, malformed or non-Bearer header, because
validate_api_key (which does return true in that mode, first conjunct) is
only consulted after a Bearer-shaped header was found. The second conjunct
evaluates the middleware at the failing input; the third shows that a
Bearer header with an arbitrary key is let through. -/
theorem C2_dev_mode_rejects_bare_request :
    validate_api_key cfgDev "anything" = true
    ∧ middleware_call (some cfgDev) "/v1/chat/completions" AuthHeader.absent =
        .rejected 401 authErrorBody
    ∧ middleware_call (some cfgDev) "/v1/chat/completions"
        (AuthHeader.value "Bearer anything") = .forwarded :=
  ⟨rfl, rfl, rfl⟩

/-- C3: with server_api_key set, a protected request is forwarded to the
handler iff its Authorization header is a string value starting with the
literal "Bearer " whose remainder equals the configured key exactly; every
other case (absent header, undecodable header, other value) is rejected
with 401 and the structured error body, so the handler is never invoked. -/
theorem C3_auth_requires_exact_bearer (cfg : Config) (k : String) (path : String)
    (h : AuthHeader) (hk : cfg.server_api_key = some k)
    (hpath : path ≠ "/v1/models") :
    (middleware_call (some cfg) path h = .forwarded ↔
      ∃ s, h = .value s ∧ s.take 7 = "Bearer " ∧ s.drop 7 = k)
    ∧ (middleware_call (some cfg) path h = .forwarded ∨
       middleware_call (some cfg) path h = .rejected 401 authErrorBody) := by
  have hmc : middleware_call (some cfg) path h =
      (if api_key_valid cfg h then .forwarded else .rejected 401 authErrorBody) := by
    unfold middleware_call
    rw [if_neg hpath]
  refine ⟨?_, ?_⟩
  · rw [hmc]
    constructor
    · intro hf
      by_cases hv : api_key_valid cfg h
      · cases h with
        | absent => simp [api_key_valid] at hv
        | malformed => simp [api_key_valid] at hv
        | value s =>
          refine ⟨s, rfl, ?_, ?_⟩
          · by_contra hsw
            simp [api_key_valid, hsw] at hv
          · by_cases hsw : s.take 7 = "Bearer "
            · have hval : validate_api_key cfg (s.drop 7) = true := by
                simpa [api_key_valid, hsw] using hv
              unfold validate_api_key at hval
              rw [hk] at hval
              exact beq_iff_eq.mp hval
            · simp [api_key_valid, hsw] at hv
      · rw [if_neg hv] at hf
        simp at hf
    · rintro ⟨s, rfl, hsw, hdk⟩
      have hv : api_key_valid cfg (.value s) = true := by
        show (if s.take 7 = "Bearer " then validate_api_key cfg (s.drop 7)
          else false) = true
        rw [if_pos hsw]
        unfold validate_api_key
        rw [hk]
        exact beq_iff_eq.mpr hdk
      rw [if_pos hv]
  · rw [hmc]
    by_cases hv : api_key_valid cfg h
    · exact Or.inl (by rw [if_pos hv])
    · exact Or.inr (by rw [if_neg hv])

/-- Witness for C3 at a concrete configuration: the exact Bearer key is
forwarded, an absent header is rejected with 401. -/
theorem C3_witness :
    middleware_call (some cfgSecret) "/v1/chat/completions"
      (AuthHeader.value "Bearer secret") = .forwarded
    ∧ middleware_call (some cfgSecret) "/v1/chat/completions"
        AuthHeader.absent = .rejected 401 authErrorBody := by
  constructor
  · exact (C3_auth_requires_exact_bearer cfgSecret "secret" "/v1/chat/completions"
      (AuthHeader.value "Bearer secret") rfl (by decide)).1.mpr
      ⟨"Bearer secret", rfl, by decide, by decide⟩
  · rcases (C3_auth_requires_exact_bearer cfgSecret "secret" "/v1/chat/completions"
        AuthHeader.absent rfl (by decide)).2 with hf | hr
    · exact absurd ((C3_auth_requires_exact_bearer cfgSecret "secret"
        "/v1/chat/completions" AuthHeader.absent rfl (by decide)).1.mp hf)
        (by rintro ⟨s, hs, -, -⟩; cases hs)
    · exact hr

/-- C4: for a provider without static models, every fetch failure mode
(transport failure, non-2xx status, unparsable body, or a body without a
data array) yields Ok with an empty list, never an error; and resolution
over a provider list containing the failing provider equals resolution with
that provider removed, i.e. every other provider stays mapped exactly as if
the failing provider had listed no models. -/
theorem C4_fetch_failure_degrades (p : Provider) (net : NetResult)
    (hp : p.models = none) (hf : isFetchFailure net = true) :
    fetch_models_from_provider p net = .ok []
    ∧ ∀ ps1 ps2, get_model_mapping (ps1 ++ (p, net) :: ps2) =
        get_model_mapping (ps1 ++ ps2) := by
  have hempty := fetchModelsP_of_failure p net hp hf
  constructor
  · rw [fetch_models_ok, hempty]
  · intro ps1 ps2
    rw [get_model_mapping_ok, get_model_mapping_ok]
    unfold getModelMappingP
    simp only [List.map_append, List.map_cons, hempty]
    rw [mapAuxP_skip_empty]

/-- Witness for C4: an HTTP 500 listing response degrades to the empty list
and leaves the other provider resolved as before. -/
theorem C4_witness :
    fetch_models_from_provider provLive (NetResult.response 500 none) = .ok []
    ∧ get_model_mapping
        [(provA, NetResult.connErr), (provLive, NetResult.response 500 none)] =
      get_model_mapping [(provA, NetResult.connErr)] := by
  have H := C4_fetch_failure_degrades provLive (NetResult.response 500 none) rfl rfl
  exact ⟨H.1, H.2 [(provA, NetResult.connErr)] []⟩

/-- C5: a completion request without a string model field fails with 400 and
the bad-request message; a string model absent from the resolved mapping
fails with 404 and a message containing the model name. In both cases the
result is an error return, so no upstream forwarding occurs. -/
theorem C5_missing_and_unknown_model (req : Json)
    (ps : List (Provider × NetResult)) (up : UpstreamResult) :
    ((req.get "model").bind Json.asStr = none →
      chat_completions req ps up = .error 400 "Missing model field")
    ∧ (∀ m, (req.get "model").bind Json.asStr = some m →
        lookupKey m (getModelMappingP ps) = none →
        chat_completions req ps up =
          .error 404 ("Model \x27" ++ m ++ "\x27 not found")) := by
  constructor
  · intro hm
    rw [chat_completions_eq, hm]
  · intro m hm hlk
    rw [chat_completions_eq, hm]
    simp only [hlk]

/-- Witness for C5: the empty object gives 400, an unmapped model gives 404
with the model name inside the message. -/
theorem C5_witness :
    chat_completions (Json.obj []) [] (UpstreamResult.connErr "down") =
      .error 400 "Missing model field"
    ∧ chat_completions (Json.obj [("model", Json.str "nope")]) []
        (UpstreamResult.connErr "down") =
      .error 404 "Model \x27nope\x27 not found" := by
  refine ⟨(C5_missing_and_unknown_model (Json.obj []) []
    (UpstreamResult.connErr "down")).1 rfl, ?_⟩
  exact (C5_missing_and_unknown_model (Json.obj [("model", Json.str "nope")]) []
    (UpstreamResult.connErr "down")).2 "nope" rfl rfl

/-- C6: whenever a mapped model is requested and the upstream responds, the
gateway relays the upstream status code (with 500 only for codes outside
the representable 100..999 range), sets Content-Type application/json, and
returns the upstream body bytes unchanged. -/
theorem C6_forwarding_opacity (req : Json) (ps : List (Provider × NetResult))
    (m : String) (s : Nat) (bs : List Nat)
    (hm : (req.get "model").bind Json.asStr = some m)
    (hsome : (lookupKey m (getModelMappingP ps)).isSome) :
    chat_completions req ps (.response s (some bs)) =
      .forwarded (if 100 ≤ s ∧ s ≤ 999 then s else 500) "application/json" bs := by
  obtain ⟨p, hp⟩ := Option.isSome_iff_exists.mp hsome
  rw [chat_completions_eq, hm]
  simp only [hp]
  rfl

/-- Witness for C6: a 429 upstream response with body bytes 123,125 is
relayed as 429 with the identical bytes. -/
theorem C6_witness :
    chat_completions (Json.obj [("model", Json.str "m1")])
      [(provA, NetResult.connErr)]
      (UpstreamResult.response 429 (some [123, 125])) =
      .forwarded 429 "application/json" [123, 125] := by
  have H := C6_forwarding_opacity (Json.obj [("model", Json.str "m1")])
    [(provA, NetResult.connErr)] "m1" 429 [123, 125] rfl (by rfl)
  rw [if_pos (by norm_num)] at H
  exact H

/-- C7: a provider with a static model list is served from it on both fetch
paths, for every network exchange alike (so no network access can influence
the result); the raw variant synthesizes exactly the minimal record per
entry; and a static id not claimed by any earlier provider resolves to this
provider. -/
theorem C7_static_models (p : Provider) (ms : List String)
    (hp : p.models = some ms) :
    (∀ net, fetch_models_from_provider p net = .ok ms)
    ∧ (∀ net, fetch_raw_models_from_provider p net = .ok (ms.map synthModel))
    ∧ (∀ ps1 ps2 net m, m ∈ ms →
        (∀ pr ∈ ps1, m ∉ fetchModelsP pr.1 pr.2) →
        lookupKey m (getModelMappingP (ps1 ++ (p, net) :: ps2)) = some p) := by
  refine ⟨?_, ?_, ?_⟩
  · intro net
    unfold fetch_models_from_provider
    rw [hp]
  · intro net
    unfold fetch_raw_models_from_provider
    rw [hp]
  · intro ps1 ps2 net m hm hnotin
    rw [getModelMappingP_lookup, List.find?_append]
    have h1 : ps1.find? (fun pr => decide (m ∈ fetchModelsP pr.1 pr.2)) = none := by
      rw [List.find?_eq_none]
      intro pr hpr
      simpa using hnotin pr hpr
    have h2 : fetchModelsP p net = ms := by
      unfold fetchModelsP
      rw [hp]
    rw [h1, List.find?_cons_of_pos _ (by simp [h2, hm])]
    rfl

/-- Witness for C7 at a concrete static provider. -/
theorem C7_witness :
    fetch_models_from_provider provA NetResult.connErr = .ok ["m1"]
    ∧ fetch_raw_models_from_provider provA NetResult.connErr =
        .ok (["m1"].map synthModel)
    ∧ lookupKey "m1" (getModelMappingP [(provA, NetResult.connErr)]) =
        some provA := by
  have H := C7_static_models provA ["m1"] rfl
  exact ⟨H.1 NetResult.connErr, H.2.1 NetResult.connErr,
    H.2.2 [] [] NetResult.connErr "m1" (by simp) (by simp)⟩

/-- C8: the models endpoint never fails from the core logic (the raw
aggregation always returns Ok, so the 500 branch of the handler is
unreachable), always answers 200 with the object/list/data body, the
records appear in first-seen-across-providers order, and the middleware
forwards every request for the listing path without any authentication,
for every configuration and header. -/
theorem C8_models_endpoint_contract (ps : List (Provider × NetResult)) :
    get_all_raw_models ps = .ok (getAllRawModelsP ps)
    ∧ models_endpoint ps =
        { status := 200,
          body := .obj [("object", .str "list"),
                        ("data", .arr (getAllRawModelsP ps))] }
    ∧ getAllRawModelsP ps =
        specFirstSeen [] ((ps.map (fun pr => fetchRawModelsP pr.1 pr.2)).flatten)
    ∧ ∀ cfg h, middleware_call cfg "/v1/models" h = .forwarded := by
  refine ⟨get_all_raw_models_ok ps, ?_, getAllRawModelsP_firstSeen ps, ?_⟩
  · unfold models_endpoint
    rw [get_all_raw_models_ok]
  · intro cfg h
    unfold middleware_call
    rw [if_pos rfl]

/-- C9: every mapping entry is sound (its provider is a configured one whose
fetched list contains the model) and the mapping is complete (a model is
mapped iff some provider fetched it): no identifier is lost or invented. -/
theorem C9_mapping_sound_complete (ps : List (Provider × NetResult)) :
    get_model_mapping ps = .ok (getModelMappingP ps)
    ∧ (∀ m p, lookupKey m (getModelMappingP ps) = some p →
        ∃ pr, pr ∈ ps ∧ pr.1 = p ∧ m ∈ fetchModelsP pr.1 pr.2)
    ∧ (∀ m, (lookupKey m (getModelMappingP ps)).isSome ↔
        ∃ pr, pr ∈ ps ∧ m ∈ fetchModelsP pr.1 pr.2) := by
  refine ⟨get_model_mapping_ok ps, ?_, ?_⟩
  · intro m p hlk
    rw [getModelMappingP_lookup] at hlk
    obtain ⟨pr, hfind, hfst⟩ := Option.map_eq_some'.mp hlk
    exact ⟨pr, List.mem_of_find?_eq_some hfind, hfst,
      by simpa using List.find?_some hfind⟩
  · intro m
    rw [getModelMappingP_lookup, Option.isSome_map']
    simp [List.find?_isSome]

/-- Witness for C9 at a concrete provider list. -/
theorem C9_witness :
    (∃ pr, pr ∈ [(provA, NetResult.connErr)] ∧ pr.1 = provA ∧
      "m1" ∈ fetchModelsP pr.1 pr.2)
    ∧ ((lookupKey "m1" (getModelMappingP [(provA, NetResult.connErr)])).isSome ↔
        ∃ pr, pr ∈ [(provA, NetResult.connErr)] ∧
          "m1" ∈ fetchModelsP pr.1 pr.2) := by
  have H := C9_mapping_sound_complete [(provA, NetResult.connErr)]
  exact ⟨H.2.1 "m1" provA rfl, H.2.2 "m1"⟩

/-- C10: with each provider feeding the same underlying data to both paths
(the shared per-provider network exchange), the id list of the raw listing
equals the key list of the mapping, entry for entry; in particular the raw
records carry pairwise distinct ids and every returned record has a string
id (records lacking one are dropped). -/
theorem C10_raw_listing_matches_mapping (ps : List (Provider × NetResult)) :
    get_all_raw_models ps = .ok (getAllRawModelsP ps)
    ∧ get_model_mapping ps = .ok (getModelMappingP ps)
    ∧ (getAllRawModelsP ps).filterMap idOf = (getModelMappingP ps).map Prod.fst
    ∧ ((getAllRawModelsP ps).filterMap idOf).Nodup
    ∧ (∀ j ∈ getAllRawModelsP ps, (idOf j).isSome) := by
  refine ⟨get_all_raw_models_ok ps, get_model_mapping_ok ps,
    getAllRawModelsP_ids ps, ?_, getAllRawModelsP_ids_isSome ps⟩
  rw [getAllRawModelsP_ids]
  exact getModelMappingP_keys_nodup ps

/-- Witness for C10 at a concrete provider list. -/
theorem C10_witness : (idOf (synthModel "m1")).isSome :=
  (C10_raw_listing_matches_mapping [(provA, NetResult.connErr)]).2.2.2.2
    (synthModel "m1") (List.mem_singleton.mpr rfl)

end Gateway
